import Mathlib

/-
  Verification of the incremental precompilation cache engine (src/src/dump.c)
  against its natural-language specification.

  Shallow embedding conventions:
  - machine size_t values are Nat; the all-ones word (~(size_t)0, the
    "infinite world age") is wInf = 2^64 - 1, and size_t wrap-around is
    taken mod 2^64 where the source relies on it;
  - runtime objects are identified by Nat ids; pointer hash tables become
    association lists (first binding wins, mirroring a hash table that
    never holds duplicate keys);
  - host-runtime collaborators that dump.c calls into (method matching,
    method-table lookup) are oracle parameters of the embedded functions.
-/

namespace JuliaDump

/-- Association-list lookup keyed by Nat, modelling ptrhash_get. -/
def alookup {α : Type} : List (Nat × α) → Nat → Option α
  | [], _ => none
  | (k, v) :: t, k2 => if k = k2 then some v else alookup t k2

/-- Association-list in-place update of an existing entry, modelling a store
through ptrhash_bp into an existing hash-table slot. -/
def aupdate {α : Type} (f : α → α) : List (Nat × α) → Nat → List (Nat × α)
  | [], _ => []
  | (k, v) :: t, k2 => if k = k2 then (k, f v) :: t else (k, v) :: aupdate f t k2

/-- The infinite world age, ~(size_t)0 on a 64-bit build. -/
def wInf : Nat := 2 ^ 64 - 1

/-! Claim C4: code-instance world stamping across save and load
    (dump.c jl_serialize_code_instance 585-639, jl_deserialize_value_code_instance 1824-1859). -/

/-- The fields of a code instance that feed the flags byte written by
jl_serialize_code_instance (dump.c:595-602). -/
structure CIOnSave where
  maxWorld : Nat
  constRet : Bool
  precompile : Bool
deriving DecidableEq, Repr

/-- The flags byte of jl_serialize_code_instance (dump.c:595-602):
bit 0 is validate, set exactly when max_world is the infinite world;
bit 2 is the constant-return bit; bit 3 the precompile bit; bit 1 unused. -/
def serializeCIFlags (ci : CIOnSave) : Nat :=
  (if ci.maxWorld = wInf then 1 else 0)
    + (if ci.constRet then 4 else 0)
    + (if ci.precompile then 8 else 0)

/-- World-relevant result of jl_deserialize_value_code_instance. -/
structure CIOnLoad where
  minWorld : Nat
  maxWorld : Nat
  inValidateSet : Bool
deriving DecidableEq, Repr

/-- World handling of jl_deserialize_value_code_instance (dump.c:1828-1857):
the struct is zero-initialized (memset), validate is bits 0-1 of the flags
byte, and only when validate is nonzero are min_world set to the current
world counter and the entry registered in new_code_instance_validate. -/
def deserializeCIWorlds (flags world : Nat) : CIOnLoad :=
  let validate := flags % 4
  { minWorld := if validate ≠ 0 then world else 0
  , maxWorld := 0
  , inValidateSet := validate ≠ 0 }

/-! Claim C7: module-binding pointer values on save (dump.c jl_serialize_module 443-506). -/

/-- Classification of a binding value as tested at dump.c:479-484. -/
inductive BValue
  | cptr (addr : Nat)
  | nonPointer
deriving DecidableEq, Repr

/-- The parts of a module binding read at dump.c:477-484. -/
structure BindingRec where
  constp : Bool
  value : Option BValue
deriving DecidableEq, Repr

/-- What jl_serialize_module emits for the value slot of one binding. -/
inductive BindingValOut
  | cnullTyped
  | serializedAsIs
deriving DecidableEq, Repr

/-- The (void*)-1 MAP_FAILED / INVALID_HANDLE sentinel on a 64-bit build. -/
def ptrSentinel : Nat := 2 ^ 64 - 1

/-- The binding-value branch of jl_serialize_module (dump.c:479-484): a
non-constant binding holding a cpointer whose address is neither the
sentinel nor null is written as a typed null (jl_serialize_cnull);
everything else goes through jl_serialize_value unchanged. -/
def serializeBindingValue (b : BindingRec) : BindingValOut :=
  match b.value with
  | some (BValue.cptr a) =>
      if b.constp = false ∧ a ≠ ptrSentinel ∧ a ≠ 0 then BindingValOut.cnullTyped
      else BindingValOut.serializedAsIs
  | _ => BindingValOut.serializedAsIs

/-! Claim C9: jl_save_incremental on an empty worklist (dump.c:2616-2631). -/

/-- Possible outcomes of the entry sequence of jl_save_incremental. -/
inductive SaveOutcome
  | ok
  | oobCrash
deriving DecidableEq, Repr

/-- size_t subtraction of one, as in jl_array_len(worklist)-1 at dump.c:2628:
wraps to 2^64-1 when the length is zero. -/
def sizeTSub1 (len : Nat) : Nat := (len + (2 ^ 64 - 1)) % 2 ^ 64

/-- Entry sequence of jl_save_incremental (dump.c:2616-2631): after opening
the file it evaluates jl_array_ptr_ref(worklist, jl_array_len(worklist)-1)
at dump.c:2628, before write_header runs. An index outside the array is an
out-of-bounds access (jl_array_ptr_ref asserts the bound), modelled as
oobCrash; with a valid top module the save proceeds (remainder abstracted). -/
def saveIncremental (worklist : List Nat) : SaveOutcome :=
  match worklist.get? (sizeTSub1 worklist.length) with
  | none => SaveOutcome.oobCrash
  | some _ => SaveOutcome.ok

/-! Claim C10: in-place filtering of live back-edge arrays while serializing a
    method instance (dump.c jl_serialize_value_ 875-895). -/

/-- The back-edge filter of dump.c:882-887: a caller is kept when its module
is in the worklist or it is in the external-MI queue. The predicates
moduleInWorklist and inQueue abstract module_in_worklist and
method_instance_in_queue over caller ids. -/
def keepBackedge (moduleInWorklist inQueue : Nat → Bool) (be : Nat) : Bool :=
  moduleInWorklist be || inQueue be

/-- The back-edge block of jl_serialize_value_ for an internal method instance
(dump.c:876-893): the live backedges array is compacted in place to the kept
entries and shrunk with jl_array_del_end; the local used for serialization
becomes NULL when nothing is kept. Returns (live array after, serialized
value). -/
def serializeMIBackedges (moduleInWorklist inQueue : Nat → Bool) :
    Option (List Nat) → Option (List Nat) × Option (List Nat)
  | none => (none, none)
  | some l =>
      let kept := l.filter (keepBackedge moduleInWorklist inQueue)
      (some kept, if kept.isEmpty then none else some kept)

/-! Claim C6: backref-table mechanics (dump.c jl_serialize_generic 508-583,
    jl_deserialize_value backref cases 2076-2093, save initialization 2643-2648). -/

/-- Object properties consulted when a fresh backref position is assigned
(dump.c:560-577): an IdDict needs reinit action 1, a module that is in the
worklist while its parent is not needs action 2, a method table action 3. -/
inductive OKind
  | idDict
  | moduleObj (inWorklist parentInWorklist : Bool)
  | mtable
  | plain
deriving DecidableEq, Repr

/-- Classification of a value as tested by jl_serialize_generic, in source
order: NULL; registered in ser_tag; a symbol in common_symbol_tag; the Core
or Base module; the empty string; a uint8 box (which skips the backref
block); any other object, carried with its identity and the properties that
drive the reinit pushes. -/
inductive SVal
  | null
  | tagged (t : Nat)
  | commonSym (i : Nat)
  | coreMod
  | baseMod
  | emptyString
  | uint8Box (b : Nat)
  | obj (id : Nat) (kind : OKind)
deriving DecidableEq, Repr

/-- What jl_serialize_generic emits before returning. assignedFresh means the
object fell through with a newly assigned position and the caller writes the
body; uint8Fallthrough means it fell through without touching the backref
table. The stored operand of shortBackref and backref is the raw table
value: position shifted left by one with the uniquing flag in the low bit. -/
inductive EmitEv
  | tagNull
  | tagRegistered (t : Nat)
  | commonSymbol (i : Nat)
  | coreTag
  | baseTag
  | emptyStringRef
  | shortBackref (stored : Nat)
  | backref (stored : Nat)
  | assignedFresh (pos : Nat)
  | uint8Fallthrough
deriving DecidableEq, Repr

/-- Serializer-side backref state: the object-to-stored-position table
(stored value = position shifted left one bit, low bit = uniquing flag),
the running element count, and the reinit list of (position, action) pairs. -/
structure SerState where
  backrefTable : List (Nat × Nat)
  numel : Nat
  reinitList : List (Nat × Nat)
deriving DecidableEq, Repr

/-- Transcription of jl_serialize_generic (dump.c:508-583). For an object
already in the table, a stored value below 65536 is written as a two-byte
SHORT_BACKREF operand and anything larger as a four-byte BACKREF operand
(dump.c:549-556). Otherwise the next position is assigned, the reinit pushes
of dump.c:560-577 happen, and the stored value is the position shifted left
by one (dump.c:578-579). -/
def serializeGeneric : SVal → SerState → EmitEv × SerState × Bool
  | SVal.null, st => (EmitEv.tagNull, st, true)
  | SVal.tagged t, st => (EmitEv.tagRegistered t, st, true)
  | SVal.commonSym i, st => (EmitEv.commonSymbol i, st, true)
  | SVal.coreMod, st => (EmitEv.coreTag, st, true)
  | SVal.baseMod, st => (EmitEv.baseTag, st, true)
  | SVal.emptyString, st => (EmitEv.emptyStringRef, st, true)
  | SVal.uint8Box _, st => (EmitEv.uint8Fallthrough, st, false)
  | SVal.obj id kind, st =>
      match alookup st.backrefTable id with
      | some stored =>
          if stored < 65536 then (EmitEv.shortBackref stored, st, true)
          else (EmitEv.backref stored, st, true)
      | none =>
          let pos := st.numel
          let reinit :=
            match kind with
            | OKind.idDict => st.reinitList ++ [(pos, 1)]
            | OKind.moduleObj true false => st.reinitList ++ [(pos, 2)]
            | OKind.mtable => st.reinitList ++ [(pos, 3)]
            | _ => st.reinitList
          (EmitEv.assignedFresh pos,
           { backrefTable := st.backrefTable ++ [(id, 2 * pos)]
           , numel := pos + 1
           , reinitList := reinit }, false)

/-- Bytes of the backref operand: write_uint16 for SHORT_BACKREF and
write_int32 for BACKREF (dump.c:549-556). -/
def backrefOperandBytes : EmitEv → Nat
  | EmitEv.shortBackref _ => 2
  | EmitEv.backref _ => 4
  | _ => 0

/-- Flag an already-positioned object as needing unique-ing on load: the
low-bit OR at dump.c:784, 867 and 968. -/
def flagBackref (st : SerState) (id : Nat) : SerState :=
  { st with backrefTable := aupdate (fun s => 2 * (s / 2) + 1) st.backrefTable id }

/-- Decoder side of a backref operand (dump.c:2077-2080): low bit is the
uniquing flag, the rest is the index into backref_list. -/
def decodeBackref (stored : Nat) : Bool × Nat := (stored % 2 = 1, stored / 2)

/-- Backref state set up by jl_save_incremental before serialization
(dump.c:2645-2648): the table holds only the Main module of the session at
stored position 0, and the element count starts at 1. -/
def saveInitState (mainId : Nat) : SerState :=
  { backrefTable := [(mainId, 0)], numel := 1, reinitList := [] }

/-! Claim C5: queueing of newly inferred external method instances
    (dump.c queue_external_mis 286-318, has_backedge_to_worklist 251-281). -/

/-- The parts of a method instance read by queue_external_mis and
has_backedge_to_worklist: whether mi def value is a method, whether the
module of the defining method is in the worklist, the precompiled flag, the
back-edge array (none models a NULL array pointer), and the relocatability
flags along the cache chain. -/
structure MIr where
  defIsMethod : Bool
  modInWorklist : Bool
  precompiled : Bool
  backedges : Option (List Nat)
  cacheRelocs : List Bool
deriving DecidableEq, Repr

/-- A store of method instances by id. -/
abbrev MIStore := List (Nat × MIr)

/-- Transcription of has_backedge_to_worklist (dump.c:251-281) with its
shared visited table: an absent entry means not yet analyzed, some false is
the preliminary does-not-link-back mark, some true means links back. A
method instance links back when it is precompiled or its module is in the
worklist (dump.c:264), or some caller in its back-edge list links back; the
preliminary mark makes a cyclic revisit answer false. The early-exit loop
over the back-edge list (dump.c:271-279) is a fold that carries the result
and the table and skips further work after the first hit; on a hit the
entry of id is re-set to the found mark (dump.c:275-276). Fuel bounds the
nesting depth; the callers pass the store size plus two, which exceeds the
number of distinct unvisited nodes any call chain can traverse. -/
def hbw (store : MIStore) : Nat → Nat → List (Nat × Bool) → Bool × List (Nat × Bool)
  | 0, _, visited => (false, visited)
  | Nat.succ fuel, id, visited =>
      match alookup visited id with
      | some b => (b, visited)
      | none =>
          match alookup store id with
          | none => (false, (id, false) :: visited)
          | some mi =>
              if mi.precompiled || mi.modInWorklist then
                (true, aupdate (fun _ => true) ((id, false) :: visited) id)
              else
                match mi.backedges with
                | none => (false, (id, false) :: visited)
                | some bes =>
                    match bes.foldl
                        (fun (st : Bool × List (Nat × Bool)) be =>
                          if st.1 then st else hbw store fuel be st.2)
                        (false, (id, false) :: visited) with
                    | (true, vis2) => (true, aupdate (fun _ => true) vis2 id)
                    | (false, vis2) => (false, vis2)

/-- One iteration of the loop of queue_external_mis (dump.c:294-314): the
accumulator carries the external-MI set (as a list of ids) and the visited
table shared across the whole scan. An entry is added when its def is a
method, the module of that method is outside the worklist, some code
instance on the cache chain is relocatable, it is not already in the set,
and the back-edge search succeeds. -/
def queueStep (store : MIStore) (acc : List Nat × List (Nat × Bool)) (id : Nat) :
    List Nat × List (Nat × Bool) :=
  match alookup store id with
  | none => acc
  | some mi =>
      if mi.defIsMethod then
        if mi.modInWorklist then acc
        else
          if (mi.cacheRelocs.any (fun b => b)) && !(decide (id ∈ acc.1)) then
            if (hbw store (store.length + 2) id acc.2).1 then
              (id :: acc.1, (hbw store (store.length + 2) id acc.2).2)
            else (acc.1, (hbw store (store.length + 2) id acc.2).2)
          else acc
      else acc

/-- queue_external_mis (dump.c:286-318): fold the step over the
newly-inferred list starting from an empty set and a fresh visited table,
returning the external-MI set. -/
def queueExternalMis (store : MIStore) (list : List Nat) : List Nat :=
  (list.foldl (queueStep store) ([], [])).1

/-! Claim C1: back-edge restoration on load
    (dump.c jl_verify_edges 2316-2371, jl_insert_backedges 2376-2437). -/

/-- World bounds of a code instance as seen by jl_insert_backedges. -/
structure CodeInstW where
  minWorld : Nat
  maxWorld : Nat
deriving DecidableEq, Repr

/-- A callee entry of ext_targets: either a concrete method instance (whose
signature is its specTypes, dump.c:2328-2330) or an abstract signature
(dump.c:2332). -/
inductive CalleeT
  | conc (id : Nat) (sig : Nat)
  | abst (sig : Nat)
deriving DecidableEq, Repr

/-- The parts of the runtime state jl_insert_backedges touches: method
instance back-edge lists, method-table back-edge lists of (signature,
caller) pairs, the code-instance store, and the keys of
new_code_instance_validate. -/
structure EdgeState where
  miBackedges : List (Nat × List Nat)
  mtBackedges : List (Nat × List (Nat × Nat))
  codeInsts : List (Nat × CodeInstW)
  validateSet : List Nat
deriving DecidableEq, Repr

/-- The signature used for matching a callee (dump.c:2327-2333). -/
def calleeSig : CalleeT → Nat
  | CalleeT.conc _ s => s
  | CalleeT.abst s => s

/-- Transcription of jl_verify_edges (dump.c:2316-2371). The matches oracle
is jl_matching_methods restricted to the method components; none models the
jl_false answer. An entry is valid when matching succeeds, the match count
equals the expected count, and every matched method is among the expected
ones (dump.c:2342-2361). -/
def verifyEdges (mmOracle : Nat → Option (List Nat))
    (targets : List (CalleeT × List Nat)) : List Bool :=
  targets.map (fun ce =>
    match mmOracle (calleeSig ce.1) with
    | none => false
    | some ms => decide (ms.length = ce.2.length) && ms.all (fun m => ce.2.contains m))

/-- Append an element to the list stored under a key, creating the entry if
absent. Modelled from the spec: jl_method_instance_add_backedge and
jl_method_table_add_backedge live in gf.c, which is not part of the sources
here; the spec describes them as adding the back-edge to the back-edge list
of the method instance respectively of the method table. -/
def addListEntry {α : Type} (tbl : List (Nat × List α)) (k : Nat) (x : α) :
    List (Nat × List α) :=
  match alookup tbl k with
  | some _ => aupdate (fun l => l ++ [x]) tbl k
  | none => tbl ++ [(k, [x])]

/-- Add the back-edge for one valid callee index (dump.c:2398-2412):
a concrete callee gains the caller on its method-instance back-edge list;
an abstract callee gains (signature, caller) on the back-edge list of its
method table, found through the mtFor oracle (jl_method_table_for) — when
that oracle answers nothing the edge is silently dropped (the workaround at
dump.c:2405-2411). -/
def addBackedgeFor (mtFor : Nat → Option Nat) (targets : List (CalleeT × List Nat))
    (caller : Nat) (st : EdgeState) (idx : Nat) : EdgeState :=
  match targets.get? idx with
  | some (CalleeT.conc id _, _) =>
      { st with miBackedges := addListEntry st.miBackedges id caller }
  | some (CalleeT.abst sg, _) =>
      match mtFor sg with
      | some mt => { st with mtBackedges := addListEntry st.mtBackedges mt (sg, caller) }
      | none => st
  | none => st

/-- Enable one code instance of a valid caller (dump.c:2415-2421): when it
is still registered in new_code_instance_validate and its min_world is
positive, its max_world becomes the infinite world; either way it is then
removed from the validation set. -/
def promoteOne (st : EdgeState) (ci : Nat) : EdgeState :=
  { st with
    codeInsts :=
      if ci ∈ st.validateSet then
        aupdate (fun c => if 0 < c.minWorld then { c with maxWorld := wInf } else c)
          st.codeInsts ci
      else st.codeInsts
  , validateSet := st.validateSet.filter (fun x => x ≠ ci) }

/-- Handling of one code instance of an invalid caller (dump.c:2424-2428):
it is removed from the validation set and its world bounds are untouched. -/
def removeOne (st : EdgeState) (ci : Nat) : EdgeState :=
  { st with validateSet := st.validateSet.filter (fun x => x ≠ ci) }

/-- One caller entry of the jl_insert_backedges loop (dump.c:2384-2434):
when every callee index of the caller is marked valid, all its back-edges
are added and its cache chain is promoted; otherwise the chain is only
removed from the validation set. The miCache oracle gives the cache chain
of a method instance. -/
def insertBackedgesEntry (mtFor : Nat → Option Nat)
    (targets : List (CalleeT × List Nat)) (valids : List Bool)
    (miCache : Nat → List Nat) (st : EdgeState) (caller : Nat) (idxs : List Nat) :
    EdgeState :=
  if idxs.all (fun i => valids.getD i false) then
    let st1 := idxs.foldl (addBackedgeFor mtFor targets caller) st
    (miCache caller).foldl promoteOne st1
  else
    (miCache caller).foldl removeOne st

/-- jl_insert_backedges (dump.c:2376-2437): verify the targets, then process
every (caller, callee-indices) pair of the edges list. -/
def insertBackedges (mmOracle : Nat → Option (List Nat)) (mtFor : Nat → Option Nat)
    (miCache : Nat → List Nat) (callers : List (Nat × List Nat))
    (targets : List (CalleeT × List Nat)) (st : EdgeState) : EdgeState :=
  let valids := verifyEdges mmOracle targets
  callers.foldl (fun st e => insertBackedgesEntry mtFor targets valids miCache st e.1 e.2) st

/-! Claims C2, C3 and C8: the restore entry point
    (dump.c _jl_restore_incremental 3030-3149, read_verify_mod_list 2449-2476,
    jl_deserialize_value 2062-2192, jl_finalize_deserializer 2575-2586). -/

/-- The fix-up passes of the restore pipeline and the reinit replay, named
after the functions _jl_restore_incremental calls (dump.c:3100-3118);
verifyEdgesP is the jl_verify_edges call performed inside
jl_insert_backedges (dump.c:2383) before its main loop. -/
inductive Pass
  | recacheTypes
  | insertMethods
  | recacheOther
  | copyRoots
  | insertMethodInstances
  | replayReinit
  | verifyEdgesP
  | insertBackedgesP
  | validateNewCodeInstances
deriving DecidableEq, Repr

/-- Observable actions of _jl_restore_incremental on the running process. -/
inductive RAction
  | disableGC
  | enableGC
  | disableFinalizers
  | enableFinalizers
  | advanceWorld
  | installObjects
  | pass (p : Pass)
deriving DecidableEq, Repr

/-- Structured errors _jl_restore_incremental can return
(dump.c:3036, 2452, 2461, 2472). -/
inductive ErrKind
  | headerVerify
  | mainUuidInvalid
  | wrongModCount
  | modMismatch
deriving DecidableEq, Repr

/-- Result of a restore: a successful module list, a structured error value
(jl_get_exceptionf), or a failed internal assertion, which aborts the
process rather than producing any value. -/
inductive RestoreResult
  | ok (restored : List Nat)
  | err (e : ErrKind)
  | crashed
deriving DecidableEq, Repr

/-- Whether a restore result is a structured error value. -/
def isErr : RestoreResult → Bool
  | RestoreResult.err _ => true
  | _ => false

/-- One record of the mod_list section of the cache file
(dump.c:2457-2468). -/
structure ModEntry where
  name : Nat
  uuidHi : Nat
  uuidLo : Nat
  buildId : Nat
deriving DecidableEq, Repr

/-- A loaded module as compared against the manifest
(dump.c:2470-2471). -/
structure ModuleR where
  name : Nat
  uuidHi : Nat
  uuidLo : Nat
  buildId : Nat
deriving DecidableEq, Repr

/-- The tags dispatched on by jl_deserialize_value (dump.c:2068-2191), kept
symbolic since the numeric values live in serialize.h. unknownLow stands
for a tag byte at most LAST_TAG that no switch case handles, which fails
the assertion in the default branch (dump.c:2189); truncatedEof stands for
reading a value off the end of the stream, which fails the entry assertion
(dump.c:2064). registered covers bytes above LAST_TAG resolved through
deser_tag. -/
inductive Tag
  | tagNull
  | tagBackrefT
  | tagShortBackrefT
  | tagSvec
  | tagLongSvec
  | tagCommonSym
  | tagSymbol
  | tagLongSymbol
  | tagArray
  | tagArray1d
  | tagUnionall
  | tagTvar
  | tagMethod
  | tagMethodInstance
  | tagCodeInstance
  | tagModule
  | tagShorterInt64
  | tagShortInt64
  | tagInt64
  | tagShortInt32
  | tagInt32
  | tagUint8
  | tagSingleton
  | tagCore
  | tagBase
  | tagCnull
  | tagBitypename
  | tagString
  | tagDatatype
  | tagGeneral
  | tagShortGeneral
  | registered (i : Nat)
  | unknownLow
  | truncatedEof
deriving DecidableEq, Repr

/-- How one dispatch of jl_deserialize_value ends. -/
inductive DeserOutcome
  | value
  | assertFail
deriving DecidableEq, Repr

/-- Dispatch outcome per tag (dump.c:2062-2191): every handled tag produces
a value; an unhandled low tag dies on the assertion of the default branch
(dump.c:2189), and a read past the end of the stream dies on the entry
assertion (dump.c:2064). No branch builds an error value. -/
def decodeTagStep : Tag → DeserOutcome
  | Tag.unknownLow => DeserOutcome.assertFail
  | Tag.truncatedEof => DeserOutcome.assertFail
  | _ => DeserOutcome.value

/-- The cache file as seen by _jl_restore_incremental: the header
verification outcome, the mod_list manifest records, the tags met while
decoding the payload, and the worklist module list the payload restores. -/
structure CacheStream where
  headerOk : Bool
  modList : List ModEntry
  payloadTags : List Tag
  worklistMods : List Nat
deriving DecidableEq, Repr

/-- Transcription of the comparison loop of read_verify_mod_list
(dump.c:2455-2475): manifests and loaded modules are walked in lockstep; a
length mismatch in either direction is the wrong-number-of-entries error,
a field mismatch is the invalid-input error. -/
def checkModList : List ModEntry → List ModuleR → Option ErrKind
  | [], [] => none
  | [], _ :: _ => some ErrKind.wrongModCount
  | _ :: _, [] => some ErrKind.wrongModCount
  | e :: es, m :: ms =>
      if m.uuidHi = e.uuidHi ∧ m.uuidLo = e.uuidLo ∧ m.name = e.name ∧
          m.buildId = e.buildId then
        checkModList es ms
      else some ErrKind.modMismatch

/-- The pass trace of a successful restore (dump.c:3100-3118): the five
recache passes, then jl_finalize_deserializer replays the reinit list
(dump.c:3107), then jl_insert_backedges verifies the edges and restores
them (dump.c:3115, with jl_verify_edges first at dump.c:2383), then
validate_new_code_instances (dump.c:3118). -/
def restorePasses : List Pass :=
  [Pass.recacheTypes, Pass.insertMethods, Pass.recacheOther, Pass.copyRoots,
   Pass.insertMethodInstances, Pass.replayReinit, Pass.verifyEdgesP,
   Pass.insertBackedgesP, Pass.validateNewCodeInstances]

/-- The pass order the spec describes: the eight fix-up passes, with the
reinit replay only afterwards. This definition follows the words of the
spec for comparison with restorePasses; it is not drawn from the source. -/
def specPassOrder : List Pass :=
  [Pass.recacheTypes, Pass.insertMethods, Pass.recacheOther, Pass.copyRoots,
   Pass.insertMethodInstances, Pass.verifyEdgesP, Pass.insertBackedgesP,
   Pass.validateNewCodeInstances, Pass.replayReinit]

/-- The eight fix-up passes in the relative order the spec gives them,
without the reinit replay. -/
def specEightPasses : List Pass :=
  [Pass.recacheTypes, Pass.insertMethods, Pass.recacheOther, Pass.copyRoots,
   Pass.insertMethodInstances, Pass.verifyEdgesP, Pass.insertBackedgesP,
   Pass.validateNewCodeInstances]

/-- Action trace of the successful path of _jl_restore_incremental
(dump.c:3063-3127): disable the collector and the finalizers, reserve a
world age, decode and install the payload objects, run the five recache
passes, replay the reinit list (dump.c:3107), re-enable the collector
(dump.c:3113), verify edges and restore back-edges (dump.c:3115), validate
the remaining new code instances (dump.c:3118), re-enable finalizers
(dump.c:3127). -/
def restoreOkTrace : List RAction :=
  [RAction.disableGC, RAction.disableFinalizers, RAction.advanceWorld,
   RAction.installObjects,
   RAction.pass Pass.recacheTypes, RAction.pass Pass.insertMethods,
   RAction.pass Pass.recacheOther, RAction.pass Pass.copyRoots,
   RAction.pass Pass.insertMethodInstances, RAction.pass Pass.replayReinit,
   RAction.enableGC,
   RAction.pass Pass.verifyEdgesP, RAction.pass Pass.insertBackedgesP,
   RAction.pass Pass.validateNewCodeInstances,
   RAction.enableFinalizers]

/-- Transcription of _jl_restore_incremental (dump.c:3030-3149) at the level
of control flow and process-visible actions. Header verification failure
returns a structured error before anything else happens (dump.c:3034-3038);
so does read_verify_mod_list failure, including the invalid Main uuid check
(dump.c:3056-3060, 2451-2453). Only then are the garbage collector and the
finalizers disabled and a world age reserved (dump.c:3063-3065). Decoding
the payload installs the objects; a corrupt tag fails an assertion inside
jl_deserialize_value instead of returning, leaving the process dead. On the
good path the remainder follows restoreOkTrace. -/
def restoreIncremental (mainBuildId : Nat) (f : CacheStream)
    (modArray : List ModuleR) : RestoreResult × List RAction :=
  if f.headerOk = false then (RestoreResult.err ErrKind.headerVerify, [])
  else if mainBuildId = 0 then (RestoreResult.err ErrKind.mainUuidInvalid, [])
  else
    match checkModList f.modList modArray with
    | some e => (RestoreResult.err e, [])
    | none =>
        if f.payloadTags.all (fun t => decodeTagStep t = DeserOutcome.value) then
          (RestoreResult.ok f.worklistMods, restoreOkTrace)
        else
          (RestoreResult.crashed,
           [RAction.disableGC, RAction.disableFinalizers, RAction.advanceWorld])

/-- Projection from actions to pipeline passes. -/
def passOf : RAction → Option Pass
  | RAction.pass p => some p
  | _ => none

/-! Concrete sample inputs used by counterexamples and witnesses. -/

/-- A well-formed cache stream: header verifies, empty manifest, one
ordinary payload tag, restoring one module. -/
def sampleGoodStream : CacheStream :=
  { headerOk := true, modList := [], payloadTags := [Tag.tagModule],
    worklistMods := [3] }

/-- A stream whose header and manifest verify but whose payload holds an
unhandled tag byte. -/
def sampleCorruptStream : CacheStream :=
  { headerOk := true, modList := [], payloadTags := [Tag.unknownLow],
    worklistMods := [] }

/-- A stream whose header verification fails. -/
def sampleBadHeaderStream : CacheStream :=
  { headerOk := false, modList := [], payloadTags := [], worklistMods := [] }

/-- A stream whose manifest names a module the process has not loaded. -/
def sampleMismatchStream : CacheStream :=
  { headerOk := true, modList := [{ name := 1, uuidHi := 2, uuidLo := 3, buildId := 4 }],
    payloadTags := [], worklistMods := [] }

/-- A newly inferred method instance: defined by a method of a module
outside the worklist, one relocatable code instance, a single back-edge to
instance 2. -/
def c5mi1 : MIr :=
  { defIsMethod := true, modInWorklist := false, precompiled := false,
    backedges := some [2], cacheRelocs := [true] }

/-- A method instance marked precompiled whose module is outside the
worklist and which has no back-edges. -/
def c5mi2 : MIr :=
  { defIsMethod := true, modInWorklist := false, precompiled := true,
    backedges := none, cacheRelocs := [] }

/-- A two-node method-instance store in which no module is in the worklist:
instance 1 back-edges only to the precompiled instance 2. -/
def c5store : MIStore := [(1, c5mi1), (2, c5mi2)]

/-- One external target: a concrete method-instance callee (id 1, signature
0) whose recorded match set is empty. -/
def c1targets : List (CalleeT × List Nat) := [(CalleeT.conc 1 0, [])]

/-- Runtime state before back-edge restoration: one code instance (id 5)
with world bounds 0..7 that is not registered in the validation set. -/
def c1state : EdgeState :=
  { miBackedges := [], mtBackedges := [],
    codeInsts := [(5, { minWorld := 0, maxWorld := 7 })], validateSet := [] }

/-! Association-list lemmas. -/

theorem alookup_aupdate_self {α : Type} (f : α → α) (l : List (Nat × α)) (k : Nat) :
    alookup (aupdate f l k) k = (alookup l k).map f := by
  induction l with
  | nil => simp [alookup, aupdate]
  | cons h t ih =>
      obtain ⟨k1, v1⟩ := h
      by_cases hk : k1 = k
      · simp [alookup, aupdate, hk]
      · simp [alookup, aupdate, hk, ih]

theorem alookup_aupdate_ne {α : Type} (f : α → α) (l : List (Nat × α)) {k k2 : Nat}
    (h : k2 ≠ k) : alookup (aupdate f l k) k2 = alookup l k2 := by
  induction l with
  | nil => simp [alookup, aupdate]
  | cons hd t ih =>
      obtain ⟨k1, v1⟩ := hd
      by_cases hk : k1 = k
      · subst hk
        have hne : ¬ k1 = k2 := fun hh => h hh.symm
        simp [alookup, aupdate, hne]
      · simp only [aupdate, if_neg hk]
        by_cases hk2 : k1 = k2
        · simp [alookup, hk2]
        · simp [alookup, hk2, ih]

theorem alookup_append_some {α : Type} {l1 : List (Nat × α)} {k : Nat} {v : α}
    (l2 : List (Nat × α)) (h : alookup l1 k = some v) :
    alookup (l1 ++ l2) k = some v := by
  induction l1 with
  | nil => simp [alookup] at h
  | cons hd t ih =>
      obtain ⟨k1, v1⟩ := hd
      by_cases hk : k1 = k
      · simpa [alookup, hk] using h
      · simp [alookup, hk] at h ⊢
        exact ih h

theorem alookup_append_none {α : Type} {l1 : List (Nat × α)} {k : Nat}
    (l2 : List (Nat × α)) (h : alookup l1 k = none) :
    alookup (l1 ++ l2) k = alookup l2 k := by
  induction l1 with
  | nil => simp [alookup]
  | cons hd t ih =>
      obtain ⟨k1, v1⟩ := hd
      by_cases hk : k1 = k
      · simp [alookup, hk] at h
      · simp [alookup, hk] at h ⊢
        exact ih h

/-! Claim C4. -/

/-- C4 counterexample: a code instance saved with max_world 5 (validate flag
cleared, since 5 is not the infinite world) is deserialized at current world
3 with min_world 0, not 3 — the zero-initialized field is left alone, so the
claim fails as stated. -/
theorem claim4_counterexample :
    ({ maxWorld := 5, constRet := false, precompile := false } : CIOnSave).maxWorld ≠ wInf ∧
    (deserializeCIWorlds
        (serializeCIFlags { maxWorld := 5, constRet := false, precompile := false }) 3).minWorld
      = 0 ∧
    (deserializeCIWorlds
        (serializeCIFlags { maxWorld := 5, constRet := false, precompile := false }) 3).minWorld
      ≠ 3 := by
  refine ⟨?_, ?_, ?_⟩ <;> decide

/-- C4 amended: round-tripping the flags byte, the deserializer stamps
min_world with the current world exactly for code instances whose validate
flag was set during save (max_world equal to the infinite world at save
time); all others keep the zero from the memset. It also registers exactly
the stamped ones in the validation set. -/
theorem claim4_amended (ci : CIOnSave) (world : Nat) :
    (deserializeCIWorlds (serializeCIFlags ci) world).minWorld =
      (if ci.maxWorld = wInf then world else 0) ∧
    ((deserializeCIWorlds (serializeCIFlags ci) world).inValidateSet ↔ ci.maxWorld = wInf) := by
  rcases ci with ⟨mw, cr, pp⟩
  by_cases h : mw = wInf <;> cases cr <;> cases pp <;>
    simp [serializeCIFlags, deserializeCIWorlds, h]

/-! Claim C7. -/

/-- C7 counterexample: a constant binding whose value is the raw pointer
0x1234 — neither null nor the sentinel — is serialized as-is, not replaced
by a typed null, because dump.c:480 additionally requires the binding to be
non-constant. -/
theorem claim7_counterexample :
    ({ constp := true, value := some (BValue.cptr 4660) } : BindingRec).constp = true ∧
    (4660 : Nat) ≠ 0 ∧ (4660 : Nat) ≠ ptrSentinel ∧
    serializeBindingValue { constp := true, value := some (BValue.cptr 4660) } =
      BindingValOut.serializedAsIs := by
  refine ⟨rfl, ?_, ?_, ?_⟩ <;> decide

/-- C7 amended: a binding value that is a raw pointer is replaced by a typed
null exactly when the binding is non-constant and the address is neither the
sentinel nor null; non-pointer and absent values are always written as-is. -/
theorem claim7_amended (b : BindingRec) :
    (∀ a, b.value = some (BValue.cptr a) →
      (serializeBindingValue b = BindingValOut.cnullTyped ↔
        (b.constp = false ∧ a ≠ ptrSentinel ∧ a ≠ 0))) ∧
    ((b.value = some BValue.nonPointer ∨ b.value = none) →
      serializeBindingValue b = BindingValOut.serializedAsIs) := by
  constructor
  · intro a ha
    by_cases hc : b.constp = false ∧ a ≠ ptrSentinel ∧ a ≠ 0 <;>
      simp [serializeBindingValue, ha, hc]
  · rintro (hv | hv) <;> simp [serializeBindingValue, hv]

/-- C7 witness: instantiating the amended claim at a non-constant binding
holding the raw pointer 7 yields the typed-null replacement. -/
theorem claim7_witness :
    serializeBindingValue { constp := false, value := some (BValue.cptr 7) } =
      BindingValOut.cnullTyped :=
  ((claim7_amended { constp := false, value := some (BValue.cptr 7) }).1 7 rfl).mpr
    (by refine ⟨rfl, ?_, ?_⟩ <;> decide)

/-! Claim C9. -/

/-- C9: with an empty worklist, jl_save_incremental reads
worklist[jl_array_len(worklist)-1] at dump.c:2628; the size_t index wraps to
2^64-1, an out-of-bounds access, so the save dies before writing the header
instead of producing a header-and-manifests-only file. A singleton worklist
passes the same step. -/
theorem claim9_theorem :
    saveIncremental [] = SaveOutcome.oobCrash ∧ saveIncremental [7] = SaveOutcome.ok := by
  constructor <;> decide

/-! Claim C10. -/

/-- C10: serializing an internal method instance rewrites the live back-edge
array of the running session to exactly the callers kept by the worklist or
external-queue test; every dropped caller is gone from the live array, and
whenever some caller fails the test the live array really differs from the
original (the deletion is observable in the session, not only in the output
stream). -/
theorem claim10_theorem (moduleInWorklist inQueue : Nat → Bool) (l : List Nat) :
    (serializeMIBackedges moduleInWorklist inQueue (some l)).1 =
      some (l.filter (keepBackedge moduleInWorklist inQueue)) ∧
    (∀ be ∈ l, keepBackedge moduleInWorklist inQueue be = false →
      be ∉ l.filter (keepBackedge moduleInWorklist inQueue)) ∧
    ((∃ be ∈ l, keepBackedge moduleInWorklist inQueue be = false) →
      l.filter (keepBackedge moduleInWorklist inQueue) ≠ l) := by
  refine ⟨rfl, ?_, ?_⟩
  · intro be _ hk hmem
    have := (List.mem_filter.mp hmem).2
    rw [hk] at this
    cases this
  · rintro ⟨be, hbe, hk⟩ heq
    have hmem : be ∈ l.filter (keepBackedge moduleInWorklist inQueue) := by
      rw [heq]; exact hbe
    have := (List.mem_filter.mp hmem).2
    rw [hk] at this
    cases this

/-- C10 witness: with caller 1 in the worklist and caller 2 outside both the
worklist and the queue, the live array of [1, 2] becomes its filtered form
and differs from the original. -/
theorem claim10_witness :
    (serializeMIBackedges (fun n => n == 1) (fun _ => false) (some [1, 2])).1 =
      some ([1, 2].filter (keepBackedge (fun n => n == 1) (fun _ => false))) ∧
    [1, 2].filter (keepBackedge (fun n => n == 1) (fun _ => false)) ≠ [1, 2] :=
  ⟨(claim10_theorem (fun n => n == 1) (fun _ => false) [1, 2]).1,
   (claim10_theorem (fun n => n == 1) (fun _ => false) [1, 2]).2.2
     ⟨2, by decide, by decide⟩⟩

/-! Claim C2. -/

/-- C2 counterexample: on a concrete successful restore the pass trace is
not the order the claim states — the reinit replay (jl_finalize_deserializer,
dump.c:3107) runs strictly before edge verification and back-edge
restoration (dump.c:3115), so it does not come after all eight passes. -/
theorem claim2_counterexample :
    (restoreIncremental 1 sampleGoodStream []).1 = RestoreResult.ok [3] ∧
    (restoreIncremental 1 sampleGoodStream []).2.filterMap passOf ≠ specPassOrder ∧
    ((restoreIncremental 1 sampleGoodStream []).2.filterMap passOf).indexOf
        Pass.replayReinit <
      ((restoreIncremental 1 sampleGoodStream []).2.filterMap passOf).indexOf
        Pass.verifyEdgesP := by
  refine ⟨?_, ?_, ?_⟩ <;> decide

/-- C2 amended: on every successful restore the fix-up passes run in the
relative order the spec gives, but the reinit list is replayed after the
insert-method-instances pass (position 5 of the trace) and before edge
verification, back-edge restoration and code-instance validation, not after
all eight passes. -/
theorem claim2_amended (mainBuildId : Nat) (f : CacheStream) (modArray : List ModuleR)
    (r : List Nat) (tr : List RAction)
    (h : restoreIncremental mainBuildId f modArray = (RestoreResult.ok r, tr)) :
    tr.filterMap passOf = restorePasses ∧
    List.Sublist specEightPasses restorePasses ∧
    restorePasses.indexOf Pass.replayReinit = 5 := by
  refine ⟨?_, by decide, by decide⟩
  have htr : tr = restoreOkTrace := by
    unfold restoreIncremental at h
    split at h
    · simp at h
    · split at h
      · simp at h
      · split at h
        · simp at h
        · split at h
          · simp only [Prod.mk.injEq] at h
            exact h.2.symm
          · simp at h
  subst htr
  decide

/-- C2 witness: the amended claim applied to the concrete good stream. -/
theorem claim2_witness :
    (restoreIncremental 1 sampleGoodStream []).2.filterMap passOf = restorePasses :=
  (claim2_amended 1 sampleGoodStream [] [3] (restoreIncremental 1 sampleGoodStream []).2
    (by decide)).1

/-! Claim C3. -/

/-- C3: whenever header verification fails or the module manifest does not
match the loaded modules (including the invalid-Main-uuid guard), the
restore returns a structured error value and performs no action at all: no
objects installed, no world-age reservation, and neither the collector nor
the finalizers were ever disabled. -/
theorem claim3_theorem (mainBuildId : Nat) (f : CacheStream) (modArray : List ModuleR)
    (h : f.headerOk = false ∨ mainBuildId = 0 ∨
      checkModList f.modList modArray ≠ none) :
    isErr (restoreIncremental mainBuildId f modArray).1 = true ∧
    (restoreIncremental mainBuildId f modArray).2 = [] ∧
    RAction.installObjects ∉ (restoreIncremental mainBuildId f modArray).2 ∧
    RAction.advanceWorld ∉ (restoreIncremental mainBuildId f modArray).2 ∧
    RAction.disableGC ∉ (restoreIncremental mainBuildId f modArray).2 ∧
    RAction.disableFinalizers ∉ (restoreIncremental mainBuildId f modArray).2 := by
  by_cases h1 : f.headerOk = false
  · simp [restoreIncremental, h1, isErr]
  · have h1t : f.headerOk = true := by
      cases hb : f.headerOk
      · exact absurd hb h1
      · rfl
    by_cases h2 : mainBuildId = 0
    · simp [restoreIncremental, h1t, h2, isErr]
    · cases hc : checkModList f.modList modArray with
      | some e => simp [restoreIncremental, h1t, h2, hc, isErr]
      | none =>
          rcases h with h | h | h
          · exact absurd h h1
          · exact absurd h h2
          · exact absurd hc h

/-- C3 witness: the concrete bad-header stream and the concrete
manifest-mismatch stream both trigger the error path with an empty action
trace. -/
theorem claim3_witness :
    sampleBadHeaderStream.headerOk = false ∧
    isErr (restoreIncremental 1 sampleBadHeaderStream []).1 = true ∧
    (restoreIncremental 1 sampleBadHeaderStream []).2 = [] ∧
    checkModList sampleMismatchStream.modList [] ≠ none ∧
    isErr (restoreIncremental 1 sampleMismatchStream []).1 = true ∧
    (restoreIncremental 1 sampleMismatchStream []).2 = [] :=
  ⟨rfl,
   (claim3_theorem 1 sampleBadHeaderStream [] (Or.inl rfl)).1,
   (claim3_theorem 1 sampleBadHeaderStream [] (Or.inl rfl)).2.1,
   by decide,
   (claim3_theorem 1 sampleMismatchStream [] (Or.inr (Or.inr (by decide)))).1,
   (claim3_theorem 1 sampleMismatchStream [] (Or.inr (Or.inr (by decide)))).2.1⟩

/-! Claim C8. -/

/-- C8 counterexample: a stream whose header and manifest verify but whose
payload starts with an unhandled tag byte makes the restore die on the
assertion in the default branch of jl_deserialize_value (dump.c:2189); the
result is not a typed error value, refuting the claim that every
format-corrupt stream aborts with one. -/
theorem claim8_counterexample :
    sampleCorruptStream.headerOk = true ∧
    checkModList sampleCorruptStream.modList [] = none ∧
    Tag.unknownLow ∈ sampleCorruptStream.payloadTags ∧
    (restoreIncremental 1 sampleCorruptStream []).1 = RestoreResult.crashed ∧
    isErr (restoreIncremental 1 sampleCorruptStream []).1 = false := by
  refine ⟨rfl, rfl, ?_, ?_, ?_⟩ <;> decide

/-- C8 amended: only header and manifest corruption produce typed error
values; a format-corrupt payload — an unknown tag byte or a read past the
end of the stream — fails an internal assertion inside jl_deserialize_value
instead, so any stream that passes the header and manifest checks but whose
payload holds such a tag ends in a crash, not a typed error. -/
theorem claim8_amended (mainBuildId : Nat) (f : CacheStream) (modArray : List ModuleR)
    (h1 : f.headerOk = true) (h2 : mainBuildId ≠ 0)
    (h3 : checkModList f.modList modArray = none)
    (h4 : ∃ t ∈ f.payloadTags, decodeTagStep t = DeserOutcome.assertFail) :
    (restoreIncremental mainBuildId f modArray).1 = RestoreResult.crashed ∧
    isErr (restoreIncremental mainBuildId f modArray).1 = false := by
  obtain ⟨t, ht, hd⟩ := h4
  have hall : f.payloadTags.all (fun t => decodeTagStep t = DeserOutcome.value) = false := by
    cases hb : f.payloadTags.all (fun t => decodeTagStep t = DeserOutcome.value)
    · rfl
    · rw [List.all_eq_true] at hb
      have := of_decide_eq_true (hb t ht)
      rw [hd] at this
      cases this
  constructor <;> simp [restoreIncremental, h1, h2, h3, hall, isErr]

/-- C8 witness: the amended claim applied to the concrete corrupt stream. -/
theorem claim8_witness :
    Tag.unknownLow ∈ sampleCorruptStream.payloadTags ∧
    (restoreIncremental 1 sampleCorruptStream []).1 = RestoreResult.crashed :=
  ⟨by decide,
   (claim8_amended 1 sampleCorruptStream [] rfl (by decide) rfl
     ⟨Tag.unknownLow, by decide, rfl⟩).1⟩

/-! Claim C6. -/

/-- C6 counterexample: jl_save_incremental pre-assigns backref position 0 to
the Main module of the session (dump.c:2647), not to the top module of the
worklist. Taking id 0 for Main and id 1 for the last (top) worklist module,
the initial table maps Main to stored position 0 while the top module is
absent and receives the fresh position 1 on its first emission — so
position 0 is not reserved for the top module (which the spec defines as
the last worklist module). -/
theorem claim6_counterexample :
    alookup (saveInitState 0).backrefTable 0 = some 0 ∧
    alookup (saveInitState 0).backrefTable 1 = none ∧
    (serializeGeneric (SVal.obj 1 (OKind.moduleObj true false)) (saveInitState 0)).1 =
      EmitEv.assignedFresh 1 ∧
    (1 : Nat) ≠ 0 := by
  refine ⟨?_, ?_, ?_, ?_⟩ <;> decide

/-- C6 amended: backref positions are assigned 0-indexed in stream order
with position 0 pre-assigned to the Main module of the session; a fresh
object gets the next position and the table stores the position shifted
left one bit; re-emitting an already-positioned object writes a two-byte
SHORT_BACKREF operand when the stored value is below 65536 and a four-byte
BACKREF operand otherwise, without touching the state; the low bit of the
stored value is the needs-unique-ing flag, set by flagBackref and split off
by the loader. -/
theorem claim6_amended :
    (∀ mainId, alookup (saveInitState mainId).backrefTable mainId = some 0 ∧
      (saveInitState mainId).numel = 1) ∧
    (∀ id kind st, alookup st.backrefTable id = none →
      (serializeGeneric (SVal.obj id kind) st).1 = EmitEv.assignedFresh st.numel ∧
      (serializeGeneric (SVal.obj id kind) st).2.1.numel = st.numel + 1 ∧
      alookup (serializeGeneric (SVal.obj id kind) st).2.1.backrefTable id =
        some (2 * st.numel)) ∧
    (∀ id kind st stored, alookup st.backrefTable id = some stored →
      (serializeGeneric (SVal.obj id kind) st).1 =
        (if stored < 65536 then EmitEv.shortBackref stored else EmitEv.backref stored) ∧
      (serializeGeneric (SVal.obj id kind) st).2.1 = st) ∧
    (∀ s, backrefOperandBytes (EmitEv.shortBackref s) = 2 ∧
      backrefOperandBytes (EmitEv.backref s) = 4) ∧
    (∀ p, decodeBackref (2 * p) = (false, p) ∧ decodeBackref (2 * p + 1) = (true, p)) ∧
    (∀ st id stored, alookup st.backrefTable id = some stored →
      alookup (flagBackref st id).backrefTable id = some (2 * (stored / 2) + 1)) := by
  refine ⟨?_, ?_, ?_, ?_, ?_, ?_⟩
  · intro mainId
    constructor
    · simp [saveInitState, alookup]
    · rfl
  · intro id kind st h
    refine ⟨?_, ?_, ?_⟩
    · simp [serializeGeneric, h]
    · simp [serializeGeneric, h]
    · simp only [serializeGeneric, h]
      rw [alookup_append_none _ h]
      simp [alookup]
  · intro id kind st stored h
    constructor
    · simp only [serializeGeneric, h]
      split <;> rfl
    · simp only [serializeGeneric, h]
      split <;> rfl
  · intro s
    exact ⟨rfl, rfl⟩
  · intro p
    constructor
    · simp only [decodeBackref, Prod.mk.injEq]
      constructor
      · simp [Nat.mul_mod_right]
      · omega
    · simp only [decodeBackref, Prod.mk.injEq]
      constructor
      · simp
        omega
      · omega
  · intro st id stored h
    simp [flagBackref, alookup_aupdate_self, h]

/-- C6 witness: the amended claim instantiated at the initial save state and
a fresh object of id 1, and at a state holding a large stored position. -/
theorem claim6_witness :
    (alookup (saveInitState 0).backrefTable 1 = none ∧
      (serializeGeneric (SVal.obj 1 OKind.plain) (saveInitState 0)).1 =
        EmitEv.assignedFresh (saveInitState 0).numel) ∧
    (serializeGeneric (SVal.obj 9 OKind.plain)
        { backrefTable := [(9, 70000)], numel := 35001, reinitList := [] }).1 =
      (if (70000 : Nat) < 65536 then EmitEv.shortBackref 70000 else EmitEv.backref 70000) :=
  ⟨⟨by decide,
    (claim6_amended.2.1 1 OKind.plain (saveInitState 0) (by decide)).1⟩,
   (claim6_amended.2.2.1 9 OKind.plain
      { backrefTable := [(9, 70000)], numel := 35001, reinitList := [] } 70000
      (by decide)).1⟩

/-! Claim C5. -/

theorem queueStep_mono (store : MIStore) (acc : List Nat × List (Nat × Bool))
    (y x : Nat) (hx : x ∈ acc.1) : x ∈ (queueStep store acc y).1 := by
  unfold queueStep
  split
  · exact hx
  · split
    · split
      · exact hx
      · split
        · split
          · exact List.mem_cons_of_mem _ hx
          · exact hx
        · exact hx
    · exact hx

/-- C5 counterexample: instance 1 is queued by queue_external_mis although
no module of any method instance in the store is in the worklist, so it has
no transitive back-edge into a worklist module: its only back-edge chain
ends at the precompiled instance 2, which has_backedge_to_worklist also
accepts as linking back (dump.c:264). This refutes the claimed
if-and-only-if characterization. -/
theorem claim5_counterexample :
    1 ∈ queueExternalMis c5store [1] ∧
    (∀ p ∈ c5store, p.2.modInWorklist = false) := by
  constructor <;> decide

/-- C5 amended: at the point a log entry is scanned, it is queued if and
only if it was already queued or: its def is a method, the module of that
method is outside the worklist, some code instance on its cache chain is
relocatable, and the back-edge search of has_backedge_to_worklist — which
counts precompiled method instances as linking back and reuses the memo
table shared across the whole scan — succeeds on the current table.
Moreover the queue only grows as the scan proceeds. -/
theorem claim5_amended (store : MIStore) (ext : List Nat) (visited : List (Nat × Bool))
    (id : Nat) (mi : MIr) (h : alookup store id = some mi) :
    (id ∈ (queueStep store (ext, visited) id).1 ↔
      (id ∈ ext ∨
        (mi.defIsMethod = true ∧ mi.modInWorklist = false ∧
         mi.cacheRelocs.any (fun b => b) = true ∧
         (hbw store (store.length + 2) id visited).1 = true))) ∧
    (∀ (list : List Nat) (acc : List Nat × List (Nat × Bool)) (x : Nat),
      x ∈ acc.1 → x ∈ (list.foldl (queueStep store) acc).1) := by
  constructor
  · simp only [queueStep, h]
    cases hdm : mi.defIsMethod
    · simp [hdm]
    · cases hmw : mi.modInWorklist
      · cases hrel : mi.cacheRelocs.any (fun b => b)
        · simp [hrel]
        · by_cases hc : id ∈ ext
          · simp [hc]
          · cases hr : (hbw store (store.length + 2) id visited).1
            · simp [hc, hr]
            · simp [hc, hr]
      · simp [hmw]
  · intro list
    induction list with
    | nil => intro acc x hx; exact hx
    | cons a t ih =>
        intro acc x hx
        simp only [List.foldl_cons]
        exact ih _ _ (queueStep_mono store acc a x hx)

/-- C5 witness: the amended claim instantiated at the concrete store with a
fresh queue and memo table; the step queues instance 1. -/
theorem claim5_witness :
    (1 ∈ (queueStep c5store ([], []) 1).1 ↔
      (1 ∈ ([] : List Nat) ∨
        (c5mi1.defIsMethod = true ∧ c5mi1.modInWorklist = false ∧
         c5mi1.cacheRelocs.any (fun b => b) = true ∧
         (hbw c5store (c5store.length + 2) 1 []).1 = true))) :=
  (claim5_amended c5store [] [] 1 c5mi1 (by decide)).1

/-! Claim C1: helper lemmas about the edge-restoration state operations. -/

theorem addListEntry_self {α : Type} (tbl : List (Nat × List α)) (k : Nat) (x : α) :
    ∃ l, alookup (addListEntry tbl k x) k = some l ∧ x ∈ l := by
  unfold addListEntry
  cases h : alookup tbl k with
  | some l0 =>
      refine ⟨l0 ++ [x], ?_, by simp⟩
      rw [alookup_aupdate_self, h]
      rfl
  | none =>
      refine ⟨[x], ?_, by simp⟩
      rw [alookup_append_none _ h]
      simp [alookup]

theorem addListEntry_mono {α : Type} (tbl : List (Nat × List α)) (k k2 : Nat) (x y : α)
    (l : List α) (h : alookup tbl k = some l) (hx : x ∈ l) :
    ∃ l2, alookup (addListEntry tbl k2 y) k = some l2 ∧ x ∈ l2 := by
  unfold addListEntry
  cases h2 : alookup tbl k2 with
  | some l0 =>
      by_cases hk : k = k2
      · subst hk
        refine ⟨l ++ [y], ?_, List.mem_append_left _ hx⟩
        rw [alookup_aupdate_self, h]
        rfl
      · exact ⟨l, by rw [alookup_aupdate_ne _ _ hk]; exact h, hx⟩
  | none =>
      exact ⟨l, alookup_append_some _ h, hx⟩

theorem addBackedgeFor_frame (mtFor : Nat → Option Nat)
    (targets : List (CalleeT × List Nat)) (caller : Nat) (st : EdgeState) (idx : Nat) :
    (addBackedgeFor mtFor targets caller st idx).codeInsts = st.codeInsts ∧
    (addBackedgeFor mtFor targets caller st idx).validateSet = st.validateSet := by
  unfold addBackedgeFor
  split
  · exact ⟨rfl, rfl⟩
  · split
    · exact ⟨rfl, rfl⟩
    · exact ⟨rfl, rfl⟩
  · exact ⟨rfl, rfl⟩

theorem foldlAdd_frame (mtFor : Nat → Option Nat) (targets : List (CalleeT × List Nat))
    (caller : Nat) (idxs : List Nat) (st : EdgeState) :
    (idxs.foldl (addBackedgeFor mtFor targets caller) st).codeInsts = st.codeInsts ∧
    (idxs.foldl (addBackedgeFor mtFor targets caller) st).validateSet = st.validateSet := by
  induction idxs generalizing st with
  | nil => exact ⟨rfl, rfl⟩
  | cons a t ih =>
      simp only [List.foldl_cons]
      obtain ⟨h1, h2⟩ := addBackedgeFor_frame mtFor targets caller st a
      obtain ⟨h3, h4⟩ := ih (addBackedgeFor mtFor targets caller st a)
      exact ⟨h3.trans h1, h4.trans h2⟩

theorem addBackedgeFor_miMono (mtFor : Nat → Option Nat)
    (targets : List (CalleeT × List Nat)) (caller2 : Nat) (st : EdgeState) (idx : Nat)
    (id x : Nat) (h : ∃ l, alookup st.miBackedges id = some l ∧ x ∈ l) :
    ∃ l2, alookup (addBackedgeFor mtFor targets caller2 st idx).miBackedges id =
      some l2 ∧ x ∈ l2 := by
  obtain ⟨l, hl, hx⟩ := h
  unfold addBackedgeFor
  split
  · exact addListEntry_mono _ _ _ _ _ _ hl hx
  · split
    · exact ⟨l, hl, hx⟩
    · exact ⟨l, hl, hx⟩
  · exact ⟨l, hl, hx⟩

theorem addBackedgeFor_mtMono (mtFor : Nat → Option Nat)
    (targets : List (CalleeT × List Nat)) (caller2 : Nat) (st : EdgeState) (idx : Nat)
    (mt : Nat) (p : Nat × Nat) (h : ∃ l, alookup st.mtBackedges mt = some l ∧ p ∈ l) :
    ∃ l2, alookup (addBackedgeFor mtFor targets caller2 st idx).mtBackedges mt =
      some l2 ∧ p ∈ l2 := by
  obtain ⟨l, hl, hx⟩ := h
  unfold addBackedgeFor
  split
  · exact ⟨l, hl, hx⟩
  · split
    · exact addListEntry_mono _ _ _ _ _ _ hl hx
    · exact ⟨l, hl, hx⟩
  · exact ⟨l, hl, hx⟩

theorem foldlAdd_miMono (mtFor : Nat → Option Nat) (targets : List (CalleeT × List Nat))
    (caller2 : Nat) (idxs : List Nat) (st : EdgeState) (id x : Nat)
    (h : ∃ l, alookup st.miBackedges id = some l ∧ x ∈ l) :
    ∃ l2, alookup ((idxs.foldl (addBackedgeFor mtFor targets caller2) st)).miBackedges id =
      some l2 ∧ x ∈ l2 := by
  induction idxs generalizing st with
  | nil => exact h
  | cons a t ih =>
      simp only [List.foldl_cons]
      exact ih _ (addBackedgeFor_miMono mtFor targets caller2 st a id x h)

theorem foldlAdd_mtMono (mtFor : Nat → Option Nat) (targets : List (CalleeT × List Nat))
    (caller2 : Nat) (idxs : List Nat) (st : EdgeState) (mt : Nat) (p : Nat × Nat)
    (h : ∃ l, alookup st.mtBackedges mt = some l ∧ p ∈ l) :
    ∃ l2, alookup ((idxs.foldl (addBackedgeFor mtFor targets caller2) st)).mtBackedges mt =
      some l2 ∧ p ∈ l2 := by
  induction idxs generalizing st with
  | nil => exact h
  | cons a t ih =>
      simp only [List.foldl_cons]
      exact ih _ (addBackedgeFor_mtMono mtFor targets caller2 st a mt p h)

theorem foldlAdd_conc (mtFor : Nat → Option Nat) (targets : List (CalleeT × List Nat))
    (caller : Nat) (idxs : List Nat) (st : EdgeState) (idx : Nat) (hi : idx ∈ idxs)
    (id sg : Nat) (exp : List Nat)
    (ht : targets.get? idx = some (CalleeT.conc id sg, exp)) :
    ∃ l, alookup ((idxs.foldl (addBackedgeFor mtFor targets caller) st)).miBackedges id =
      some l ∧ caller ∈ l := by
  induction idxs generalizing st with
  | nil => cases hi
  | cons a t ih =>
      simp only [List.foldl_cons]
      rcases List.mem_cons.mp hi with rfl | hmem
      · refine foldlAdd_miMono mtFor targets caller t _ id caller ?_
        unfold addBackedgeFor
        rw [ht]
        exact addListEntry_self _ _ _
      · exact ih _ hmem

theorem foldlAdd_abst (mtFor : Nat → Option Nat) (targets : List (CalleeT × List Nat))
    (caller : Nat) (idxs : List Nat) (st : EdgeState) (idx : Nat) (hi : idx ∈ idxs)
    (sg : Nat) (exp : List Nat) (mt : Nat)
    (ht : targets.get? idx = some (CalleeT.abst sg, exp)) (hmt : mtFor sg = some mt) :
    ∃ l, alookup ((idxs.foldl (addBackedgeFor mtFor targets caller) st)).mtBackedges mt =
      some l ∧ (sg, caller) ∈ l := by
  induction idxs generalizing st with
  | nil => cases hi
  | cons a t ih =>
      simp only [List.foldl_cons]
      rcases List.mem_cons.mp hi with rfl | hmem
      · refine foldlAdd_mtMono mtFor targets caller t _ mt (sg, caller) ?_
        unfold addBackedgeFor
        rw [ht]
        dsimp only
        rw [hmt]
        exact addListEntry_self _ _ _
      · exact ih _ hmem

theorem foldlPromote_backedges (chain : List Nat) (st : EdgeState) :
    (chain.foldl promoteOne st).miBackedges = st.miBackedges ∧
    (chain.foldl promoteOne st).mtBackedges = st.mtBackedges := by
  induction chain generalizing st with
  | nil => exact ⟨rfl, rfl⟩
  | cons a t ih =>
      simp only [List.foldl_cons]
      obtain ⟨h1, h2⟩ := ih (promoteOne st a)
      exact ⟨h1.trans rfl, h2.trans rfl⟩

theorem promoteOne_codeInsts_ne (st : EdgeState) (ci ci2 : Nat) (h : ci2 ≠ ci) :
    alookup (promoteOne st ci).codeInsts ci2 = alookup st.codeInsts ci2 := by
  unfold promoteOne
  dsimp only
  split
  · exact alookup_aupdate_ne _ _ h
  · rfl

theorem promoteOne_validate_ne (st : EdgeState) (ci ci2 : Nat) (h : ci2 ≠ ci) :
    ci2 ∈ (promoteOne st ci).validateSet ↔ ci2 ∈ st.validateSet := by
  unfold promoteOne
  dsimp only
  constructor
  · intro hm
    exact (List.mem_filter.mp hm).1
  · intro hm
    exact List.mem_filter.mpr ⟨hm, decide_eq_true h⟩

theorem promoteChain_codeInsts (chain : List Nat) (st : EdgeState) (hnd : chain.Nodup)
    (ci : Nat) :
    alookup (chain.foldl promoteOne st).codeInsts ci =
      (if ci ∈ chain then
        (alookup st.codeInsts ci).map (fun c =>
          if ci ∈ st.validateSet ∧ 0 < c.minWorld then { c with maxWorld := wInf } else c)
      else alookup st.codeInsts ci) := by
  induction chain generalizing st with
  | nil => simp
  | cons a t ih =>
      obtain ⟨ha, hndt⟩ := List.nodup_cons.mp hnd
      simp only [List.foldl_cons]
      rw [ih (promoteOne st a) hndt]
      by_cases hm : ci ∈ t
      · have hne : ci ≠ a := fun hh => ha (hh ▸ hm)
        rw [if_pos hm, if_pos (List.mem_cons_of_mem _ hm),
          promoteOne_codeInsts_ne st a ci hne]
        cases ho : alookup st.codeInsts ci with
        | none => rfl
        | some c =>
            simp only [Option.map_some']
            congr 1
            by_cases hvs : ci ∈ st.validateSet
            · have hvs2 := (promoteOne_validate_ne st a ci hne).mpr hvs
              by_cases hw : 0 < c.minWorld <;> simp [hvs, hvs2, hw]
            · have hvs2 : ci ∉ (promoteOne st a).validateSet :=
                fun hh => hvs ((promoteOne_validate_ne st a ci hne).mp hh)
              simp [hvs, hvs2]
      · rw [if_neg hm]
        by_cases hca : ci = a
        · subst hca
          rw [if_pos (List.mem_cons_self _ _)]
          unfold promoteOne
          dsimp only
          by_cases hvs : ci ∈ st.validateSet
          · rw [if_pos hvs, alookup_aupdate_self]
            cases ho : alookup st.codeInsts ci with
            | none => rfl
            | some c => by_cases hw : 0 < c.minWorld <;> simp [hvs, hw]
          · rw [if_neg hvs]
            cases ho : alookup st.codeInsts ci with
            | none => rfl
            | some c => simp [hvs]
        · rw [if_neg (fun hh => (List.mem_cons.mp hh).elim hca hm)]
          exact promoteOne_codeInsts_ne st a ci hca

theorem promoteOne_validate_sub (st : EdgeState) (c x : Nat) (h : x ∉ st.validateSet) :
    x ∉ (promoteOne st c).validateSet :=
  fun hh => h (List.mem_filter.mp hh).1

theorem promoteOne_validate_gone (st : EdgeState) (ci : Nat) :
    ci ∉ (promoteOne st ci).validateSet := by
  intro hh
  have := (List.mem_filter.mp hh).2
  simp at this

theorem foldlPromote_validate_sub (chain : List Nat) (st : EdgeState) (x : Nat)
    (h : x ∉ st.validateSet) : x ∉ (chain.foldl promoteOne st).validateSet := by
  induction chain generalizing st with
  | nil => exact h
  | cons a t ih =>
      simp only [List.foldl_cons]
      exact ih _ (promoteOne_validate_sub st a x h)

theorem foldlPromote_validate_gone (chain : List Nat) (st : EdgeState) (ci : Nat)
    (h : ci ∈ chain) : ci ∉ (chain.foldl promoteOne st).validateSet := by
  induction chain generalizing st with
  | nil => cases h
  | cons a t ih =>
      simp only [List.foldl_cons]
      rcases List.mem_cons.mp h with rfl | hm
      · exact foldlPromote_validate_sub t (promoteOne st ci) ci
          (promoteOne_validate_gone st ci)
      · exact ih (promoteOne st a) hm

theorem removeOne_validate_sub (st : EdgeState) (c x : Nat) (h : x ∉ st.validateSet) :
    x ∉ (removeOne st c).validateSet :=
  fun hh => h (List.mem_filter.mp hh).1

theorem removeOne_validate_gone (st : EdgeState) (ci : Nat) :
    ci ∉ (removeOne st ci).validateSet := by
  intro hh
  have := (List.mem_filter.mp hh).2
  simp at this

theorem foldlRemove_validate_sub (chain : List Nat) (st : EdgeState) (x : Nat)
    (h : x ∉ st.validateSet) : x ∉ (chain.foldl removeOne st).validateSet := by
  induction chain generalizing st with
  | nil => exact h
  | cons a t ih =>
      simp only [List.foldl_cons]
      exact ih _ (removeOne_validate_sub st a x h)

theorem foldlRemove_validate_gone (chain : List Nat) (st : EdgeState) (ci : Nat)
    (h : ci ∈ chain) : ci ∉ (chain.foldl removeOne st).validateSet := by
  induction chain generalizing st with
  | nil => cases h
  | cons a t ih =>
      simp only [List.foldl_cons]
      rcases List.mem_cons.mp h with rfl | hm
      · exact foldlRemove_validate_sub t (removeOne st ci) ci
          (removeOne_validate_gone st ci)
      · exact ih (removeOne st a) hm

theorem foldlRemove_codeInsts (chain : List Nat) (st : EdgeState) :
    (chain.foldl removeOne st).codeInsts = st.codeInsts := by
  induction chain generalizing st with
  | nil => rfl
  | cons a t ih =>
      simp only [List.foldl_cons]
      exact (ih (removeOne st a)).trans rfl

/-- C1 counterexample: one caller (id 10) whose single callee (the concrete
method instance 1 with an empty recorded match set) verifies as valid, and
whose cache chain holds the code instance 5 with world bounds 0..7, which is
not registered in the validation set. After jl_insert_backedges the bounds
are still 0..7: the chain was not promoted to the infinite world even
though every callee index of the caller is valid, refuting the claim that
every code instance on the chain of a fully-valid caller gets
max_world infinite. -/
theorem claim1_counterexample :
    verifyEdges (fun _ => some []) c1targets = [true] ∧
    alookup (insertBackedges (fun _ => some []) (fun _ => none) (fun _ => [5])
        [(10, [0])] c1targets c1state).codeInsts 5 =
      some { minWorld := 0, maxWorld := 7 } ∧
    (7 : Nat) ≠ wInf := by
  refine ⟨?_, ?_, ?_⟩ <;> decide

/-- C1 amended: for one caller entry of jl_insert_backedges, if all its
callee indices are valid then every concrete callee among them gains the
caller on its method-instance back-edge list, every abstract callee for
which a method table is found gains (signature, caller) on that table
(callees without a method table are silently skipped), and a code instance
of the caller chain has its max_world promoted to the infinite world
exactly when it is registered in the validation set with positive
min_world — all chain entries being removed from the validation set, all
other code instances untouched. If some callee index is invalid, the world
bounds of every code instance are left unchanged and the chain is only
removed from the validation set. -/
theorem claim1_amended (mtFor : Nat → Option Nat) (targets : List (CalleeT × List Nat))
    (valids : List Bool) (miCache : Nat → List Nat) (st : EdgeState) (caller : Nat)
    (idxs : List Nat) (hnd : (miCache caller).Nodup) :
    (idxs.all (fun i => valids.getD i false) = true →
      ((∀ idx ∈ idxs, ∀ id sg exp, targets.get? idx = some (CalleeT.conc id sg, exp) →
          ∃ l, alookup (insertBackedgesEntry mtFor targets valids miCache st caller
            idxs).miBackedges id = some l ∧ caller ∈ l) ∧
       (∀ idx ∈ idxs, ∀ sg exp mt, targets.get? idx = some (CalleeT.abst sg, exp) →
          mtFor sg = some mt →
          ∃ l, alookup (insertBackedgesEntry mtFor targets valids miCache st caller
            idxs).mtBackedges mt = some l ∧ (sg, caller) ∈ l) ∧
       (∀ ci, alookup (insertBackedgesEntry mtFor targets valids miCache st caller
            idxs).codeInsts ci =
          (if ci ∈ miCache caller then
            (alookup st.codeInsts ci).map (fun c =>
              if ci ∈ st.validateSet ∧ 0 < c.minWorld then { c with maxWorld := wInf }
              else c)
          else alookup st.codeInsts ci)) ∧
       (∀ ci ∈ miCache caller,
          ci ∉ (insertBackedgesEntry mtFor targets valids miCache st caller
            idxs).validateSet))) ∧
    (idxs.all (fun i => valids.getD i false) = false →
      ((insertBackedgesEntry mtFor targets valids miCache st caller idxs).codeInsts =
        st.codeInsts ∧
       (∀ ci ∈ miCache caller,
          ci ∉ (insertBackedgesEntry mtFor targets valids miCache st caller
            idxs).validateSet))) := by
  constructor
  · intro hv
    have hee : insertBackedgesEntry mtFor targets valids miCache st caller idxs =
        (miCache caller).foldl promoteOne
          (idxs.foldl (addBackedgeFor mtFor targets caller) st) := by
      unfold insertBackedgesEntry
      rw [if_pos hv]
    refine ⟨?_, ?_, ?_, ?_⟩
    · intro idx hi id sg exp ht
      rw [hee, (foldlPromote_backedges _ _).1]
      exact foldlAdd_conc mtFor targets caller idxs st idx hi id sg exp ht
    · intro idx hi sg exp mt ht hmt
      rw [hee, (foldlPromote_backedges _ _).2]
      exact foldlAdd_abst mtFor targets caller idxs st idx hi sg exp mt ht hmt
    · intro ci
      rw [hee, promoteChain_codeInsts (miCache caller) _ hnd ci,
        (foldlAdd_frame mtFor targets caller idxs st).1,
        (foldlAdd_frame mtFor targets caller idxs st).2]
    · intro ci hci
      rw [hee]
      exact foldlPromote_validate_gone _ _ _ hci
  · intro hv
    have hee : insertBackedgesEntry mtFor targets valids miCache st caller idxs =
        (miCache caller).foldl removeOne st := by
      unfold insertBackedgesEntry
      rw [if_neg (fun h => Bool.false_ne_true (hv.symm.trans h))]
    constructor
    · rw [hee]
      exact foldlRemove_codeInsts _ _
    · intro ci hci
      rw [hee]
      exact foldlRemove_validate_gone _ _ _ hci

/-- C1 witness: the amended claim instantiated at the concrete caller 10
with valid callee index 0 and chain [5]; the concrete callee 1 gains the
back-edge and the chain entry keeps its bounds since it is not in the
validation set. -/
theorem claim1_witness :
    (([5] : List Nat).Nodup) ∧
    (∃ l, alookup (insertBackedgesEntry (fun _ => none) c1targets [true] (fun _ => [5])
        c1state 10 [0]).miBackedges 1 = some l ∧ 10 ∈ l) :=
  ⟨by decide,
   ((claim1_amended (fun _ => none) c1targets [true] (fun _ => [5]) c1state 10 [0]
      (by decide)).1 (by decide)).1 0 (by decide) 1 0 [] (by decide)⟩

end JuliaDump
